import Mathlib

/-!
# Verification of the CachedCGLazyTensor solve cache
  (gpytorch/lazy/cached_cg_lazy_tensor.py)

A shallow embedding of the caching/solve-reuse engine of
CachedCGLazyTensor.  Tensors carry exact rationals (the idealisation of
the float arithmetic the code performs); a matrix of shape (n, m) is a
function Fin n → Fin m → ℚ, and a column is a function Fin n → ℚ.
Batch dimensions are flattened away, exactly as the code itself does via
rhs.view(-1, rhs.size(-1)).

The lookup (CachedCGLazyTensor._solve, lines 98-126) is embedded as
cachedSolve below.  The base operator's conjugate-gradient solve — an
external collaborator the code reaches through
super()._solve(rhs, preconditioner, ...) — is an abstract function
parameter baseSolve.
-/

open Finset

/-- A column of an (n, m) matrix: entry i of column j, as produced by
indexing along the last dimension. -/
def col {n m : ℕ} (M : Matrix (Fin n) (Fin m) ℚ) (j : Fin m) : Fin n → ℚ :=
  fun i => M i j

/-- A single-column (n, 1) matrix holding the vector v, for queries of one
right-hand side. -/
def oneCol {n : ℕ} (v : Fin n → ℚ) : Matrix (Fin n) (Fin 1) ℚ :=
  Matrix.of fun i _ => v i

/-- Dot product of two columns, the entrywise product summed along the rows:
one entry of the matrix product normed_eager_rhs.t() @ normed_rhs before
normalisation is factored out. -/
def dotc {n : ℕ} (u v : Fin n → ℚ) : ℚ := ∑ i, u i * v i

/-- Squared L2 norm of a column.  The code computes the norm itself,
v.norm(2, dim=0), which is the square root of this quantity; the model
keeps the square because every test the code performs on norms (comparison
of the cosine similarity with 0.9999, equality of the norm with 0) is
expressible exactly in the squares. -/
def normSq {n : ℕ} (v : Fin n → ℚ) : ℚ := dotc v v

/-- The thresholded cosine-similarity test of _solve lines 105-110:

  normed_rhs = rhs / rhs.norm(2, dim=0);
  similarity_matrix = self.normed_eager_rhs.t() @ normed_rhs;
  similarity_matrix.gt(0.9999)

i.e. entry (i, j) holds when (u·v) / (‖u‖‖v‖) > 9999/10000 for cached
column u and query column v.  Exact-arithmetic rendering: the inequality
with the (irrational) norms in the denominator is equivalent to requiring
a positive dot product whose square clears the squared threshold, which is
rational and decidable; the equivalence with the division form is proved
in simGT_iff_cosSim below.  A zero column makes the code's division
produce NaN entries and NaN.gt(0.9999) is False; here a zero column makes
the dot product zero, so the test is likewise false. -/
def simGT {n : ℕ} (u v : Fin n → ℚ) : Bool :=
  decide (0 < dotc u v ∧
    9999 ^ 2 * (normSq u * normSq v) < 10000 ^ 2 * dotc u v ^ 2)

/-- The state the constructor stores for the lookup: the eagerly supplied
right-hand sides (self.eager_rhs, whose columns the stored
self.normed_eager_rhs normalises) and their precomputed solves
(self.solves), column i of solves answering column i of eager_rhs. -/
structure CachedCG (n k : ℕ) where
  eager_rhs : Matrix (Fin n) (Fin k) ℚ
  solves : Matrix (Fin n) (Fin k) ℚ

/-- Entry (i, j) of similarity_matrix after .gt(0.9999).type_as(...)
(line 110): 1.0 when cached column i matches query column q, else 0.0. -/
def simInd {n k : ℕ} (T : CachedCG n k) (q : Fin n → ℚ) (i : Fin k) : ℚ :=
  if simGT (col T.eager_rhs i) q then 1 else 0

/-- num_precomputed_per_vec (line 111): the per-query-column sum of the 0/1
similarity indicators, i.e. how many cached columns match the query. -/
def numPrecomputed {n k : ℕ} (T : CachedCG n k) (q : Fin n → ℚ) : ℚ :=
  ∑ i, simInd T q i

/-- similarity_matrix.div(num_precomputed_per_vec.clamp(1, math.inf))
(line 112): the match indicators of each query column divided by the match
count clamped below at 1, producing averaging weights. -/
def weightMatrix {n k m : ℕ} (T : CachedCG n k)
    (rhs : Matrix (Fin n) (Fin m) ℚ) : Matrix (Fin k) (Fin m) ℚ :=
  Matrix.of fun i j =>
    simInd T (col rhs j) i / max (numPrecomputed T (col rhs j)) 1

/-- The coverage check of line 117,
torch.all(num_precomputed_per_vec.ge(1) | norm.squeeze_(0).eq(0.)):
every query column has at least one cached match or has norm zero
(its squared norm is zero, equivalently). -/
def coverageOk {n k m : ℕ} (T : CachedCG n k)
    (rhs : Matrix (Fin n) (Fin m) ℚ) : Bool :=
  decide (∀ j : Fin m,
    1 ≤ numPrecomputed T (col rhs j) ∨ normSq (col rhs j) = 0)

/-- What one call of CachedCGLazyTensor._solve produces and does:
the returned solve batch, whether it was served from the cache
(false on both the tridiagonalization bypass and the coverage fallback,
which call super()._solve), and whether the diagnostic warning of
lines 118-122 was emitted. -/
structure SolveOutcome (n m : ℕ) where
  result : Matrix (Fin n) (Fin m) ℚ
  usedCache : Bool
  warned : Bool
  deriving DecidableEq

/-- CachedCGLazyTensor._solve (lines 98-126).  numTridiag models the
num_tridiag argument (None or a number); baseSolve models the fresh
conjugate-gradient solve super()._solve performs through the base lazy
tensor; debugOn models settings.debug.on().

* num_tridiag is not None (line 100): fresh solve, cache untouched.
* coverage fails (line 117): warn when debug is on, fresh solve of the
  entire batch (line 123).
* otherwise: self.solves @ similarity_matrix (line 126). -/
def cachedSolve {n k m : ℕ} (T : CachedCG n k)
    (baseSolve : Matrix (Fin n) (Fin m) ℚ → Matrix (Fin n) (Fin m) ℚ)
    (debugOn : Bool) (rhs : Matrix (Fin n) (Fin m) ℚ)
    (numTridiag : Option ℕ) : SolveOutcome n m :=
  match numTridiag with
  | some _ => ⟨baseSolve rhs, false, false⟩
  | none =>
    if coverageOk T rhs then
      ⟨T.solves * weightMatrix T rhs, true, false⟩
    else
      ⟨baseSolve rhs, false, debugOn⟩

example :
    simGT (fun _ : Fin 2 => (1 : ℚ)) (fun _ : Fin 2 => (3 : ℚ)) = true := by
  simp [simGT, dotc, normSq, Fin.sum_univ_two]; norm_num

example :
    simGT (fun i : Fin 2 => if i = 0 then (1 : ℚ) else 0)
      (fun i : Fin 2 => if i = 0 then (0 : ℚ) else 1) = false := by
  simp [simGT, dotc, normSq, Fin.sum_univ_two]

/-!
## The normalisation itself, at IEEE level

The divisions rhs.div(norm) of lines 48-49 and 106-107 are performed with
no guard on the denominator: the clamp of line 112 applies to the match
count, not to the norm.  To settle what those divisions produce on a zero
column we model a single float division outcome over exact reals: finite
value, NaN (0/0) or a signed infinity (x/0, x ≠ 0). -/

/-- Outcome of one float division. -/
inductive FpVal where
  | fin (x : ℝ)
  | nan
  | inf (positive : Bool)

/-- IEEE-style division of exact real values: x / 0 is NaN when x = 0 and
a signed infinity otherwise, and is a finite quotient when y ≠ 0. -/
noncomputable def fpDivR (x y : ℝ) : FpVal :=
  if y = 0 then (if x = 0 then .nan else .inf (decide (0 < x))) else .fin (x / y)

/-- The L2 norm v.norm(2, dim=0) the code divides by — the square root of
the squared norm, as an exact real. -/
noncomputable def colNormR {n : ℕ} (v : Fin n → ℚ) : ℝ :=
  Real.sqrt ((normSq v : ℚ) : ℝ)

/-- Entry i of the normalised column v.div(v.norm(2, dim=0)) (lines 48-49
at construction, lines 106-107 at lookup), as the code's float division
produces it. -/
noncomputable def normedEntry {n : ℕ} (v : Fin n → ℚ) (i : Fin n) : FpVal :=
  fpDivR ((v i : ℚ) : ℝ) (colNormR v)

/-!
## Probe vector generation (constructor lines 25-41)

When no probe vectors are supplied and will_compute_logdet is true, the
constructor draws an (n, k) matrix of Bernoulli values b ∈ {0, 1}
(bernoulli_()), maps them to Rademacher entries 2 b - 1 ∈ {-1, +1}
(mul_(2).add_(-1)), records each column's L2 norm, and divides each column
by its own norm.  When will_compute_logdet is false it stores empty
tensors (torch.tensor([])).  The Bernoulli draws — the only randomness —
are passed in as a Boolean matrix. -/

/-- The pre-normalisation Rademacher matrix: entry 2 b - 1 for Bernoulli
draw b, i.e. -1 for a drawn 0 and +1 for a drawn 1. -/
def rademacher {n k : ℕ} (draws : Matrix (Fin n) (Fin k) Bool) :
    Matrix (Fin n) (Fin k) ℚ :=
  Matrix.of fun i j => 2 * (if draws i j then 1 else 0) - 1

/-- probe_vector_norms (line 33): the L2 norm of each pre-normalisation
probe column. -/
noncomputable def probeNormR {n k : ℕ} (draws : Matrix (Fin n) (Fin k) Bool)
    (j : Fin k) : ℝ :=
  Real.sqrt (∑ i, ((rademacher draws i j : ℚ) : ℝ) ^ 2)

/-- probe_vectors after the division of line 38: each Rademacher column
divided by its own L2 norm. -/
noncomputable def probeVectorsNormed {n k : ℕ}
    (draws : Matrix (Fin n) (Fin k) Bool) : Matrix (Fin n) (Fin k) ℝ :=
  Matrix.of fun i j => ((rademacher draws i j : ℚ) : ℝ) / probeNormR draws j

/-- The probe structures the constructor stores: a vectors/norms pair, or
the empty tensors torch.tensor([]) of lines 40-41. -/
inductive ProbeData : Type where
  | mk (n k : ℕ) (vectors : Matrix (Fin n) (Fin k) ℝ) (norms : Fin k → ℝ)
  | empty

/-- The probe-generation branch of __init__ (lines 25-41), for the case
that no probe vectors were supplied: Rademacher columns normalised by
their own norms when will_compute_logdet holds, empty structures
otherwise.  Batch broadcasting (expand) is identity here since batch
dimensions are flattened away. -/
noncomputable def generateProbes (willComputeLogdet : Bool) (n k : ℕ)
    (draws : Matrix (Fin n) (Fin k) Bool) : ProbeData :=
  if willComputeLogdet then
    .mk n k (probeVectorsNormed draws) (probeNormR draws)
  else
    .empty

/-!
## The constructor's effect on the caller's eager_rhs (line 70)

self.eager_rhs = eager_rhs.requires_grad_(False) stores the very tensor
the caller passed, after requires_grad_(False) has set that tensor's
gradient-tracking flag in place.  The construction reads eager_rhs
(view/div/cat all allocate fresh tensors) but never writes its values;
the flag write is the only mutation the caller can observe.  A tensor is
modelled as its values together with the flag. -/

/-- A caller-visible tensor: values plus the gradient-tracking flag. -/
structure TensorQ (n m : ℕ) where
  values : Matrix (Fin n) (Fin m) ℚ
  requiresGrad : Bool
  deriving DecidableEq

/-- The net effect of __init__ on the eager_rhs tensor the caller handed
in: values untouched, gradient-tracking flag set to False in place by
eager_rhs.requires_grad_(False). -/
def initEagerRhsEffect {n m : ℕ} (t : TensorQ n m) : TensorQ n m :=
  { t with requiresGrad := false }

/-!
## Supporting lemmas
-/

theorem normSq_nonneg {n : ℕ} (v : Fin n → ℚ) : 0 ≤ normSq v := by
  refine Finset.sum_nonneg fun i _ => mul_self_nonneg (v i)

theorem normSq_eq_zero_iff {n : ℕ} (v : Fin n → ℚ) :
    normSq v = 0 ↔ ∀ i, v i = 0 := by
  unfold normSq dotc
  rw [Finset.sum_eq_zero_iff_of_nonneg fun i _ => mul_self_nonneg (v i)]
  constructor
  · intro h i
    exact mul_self_eq_zero.mp (h i (Finset.mem_univ i))
  · intro h i _
    rw [h i, mul_zero]

theorem dotc_zero_right {n : ℕ} (u v : Fin n → ℚ) (h : ∀ i, v i = 0) :
    dotc u v = 0 := by
  unfold dotc
  refine Finset.sum_eq_zero fun i _ => ?_
  rw [h i, mul_zero]

theorem dotc_zero_left {n : ℕ} (u v : Fin n → ℚ) (h : ∀ i, u i = 0) :
    dotc u v = 0 := by
  unfold dotc
  refine Finset.sum_eq_zero fun i _ => ?_
  rw [h i, zero_mul]

/-- A zero query column matches nothing: its dot product with anything is
zero, so the strict positivity conjunct of the threshold test fails —
exactly as the code's NaN entries compare false against 0.9999. -/
theorem simGT_zero_right {n : ℕ} (u v : Fin n → ℚ) (h : normSq v = 0) :
    simGT u v = false := by
  have hv := (normSq_eq_zero_iff v).mp h
  have hd : dotc u v = 0 := dotc_zero_right u v hv
  simp [simGT, hd]

theorem simGT_zero_left {n : ℕ} (u v : Fin n → ℚ) (h : normSq u = 0) :
    simGT u v = false := by
  have hu := (normSq_eq_zero_iff u).mp h
  have hd : dotc u v = 0 := dotc_zero_left u v hu
  simp [simGT, hd]

/-- A nonzero column passes the threshold test against itself: its cosine
similarity with itself is exactly 1 > 0.9999. -/
theorem simGT_self {n : ℕ} (v : Fin n → ℚ) (h : 0 < normSq v) :
    simGT v v = true := by
  have hd : dotc v v = normSq v := rfl
  refine decide_eq_true ?_
  refine ⟨by rw [hd]; exact h, ?_⟩
  rw [hd]
  nlinarith [h]

theorem dotc_smul_right {n : ℕ} (u v : Fin n → ℚ) (a : ℚ) :
    dotc u (fun i => a * v i) = a * dotc u v := by
  unfold dotc
  rw [Finset.mul_sum]
  refine Finset.sum_congr rfl fun i _ => by ring

theorem normSq_smul {n : ℕ} (v : Fin n → ℚ) (a : ℚ) :
    normSq (fun i => a * v i) = a ^ 2 * normSq v := by
  unfold normSq dotc
  rw [Finset.mul_sum]
  refine Finset.sum_congr rfl fun i _ => by ring

/-- Positive rescaling of the query column does not change the threshold
test: normalisation removes (positive) magnitude. -/
theorem simGT_smul_right {n : ℕ} (u v : Fin n → ℚ) (a : ℚ) (ha : 0 < a) :
    simGT u (fun i => a * v i) = simGT u v := by
  unfold simGT
  rw [decide_eq_decide]
  rw [dotc_smul_right, normSq_smul]
  have ha2 : 0 < a ^ 2 := by positivity
  constructor
  · rintro ⟨h1, h2⟩
    constructor
    · by_contra hc
      push_neg at hc
      nlinarith
    · nlinarith
  · rintro ⟨h1, h2⟩
    exact ⟨mul_pos ha h1, by nlinarith⟩

theorem coverageOk_iff {n k m : ℕ} (T : CachedCG n k)
    (rhs : Matrix (Fin n) (Fin m) ℚ) :
    coverageOk T rhs = true ↔
      ∀ j : Fin m, 1 ≤ numPrecomputed T (col rhs j) ∨ normSq (col rhs j) = 0 := by
  simp [coverageOk]

theorem cachedSolve_covered {n k m : ℕ} (T : CachedCG n k)
    (baseSolve : Matrix (Fin n) (Fin m) ℚ → Matrix (Fin n) (Fin m) ℚ)
    (debugOn : Bool) (rhs : Matrix (Fin n) (Fin m) ℚ)
    (h : coverageOk T rhs = true) :
    cachedSolve T baseSolve debugOn rhs none =
      ⟨T.solves * weightMatrix T rhs, true, false⟩ := by
  simp [cachedSolve, h]

theorem cachedSolve_fallback {n k m : ℕ} (T : CachedCG n k)
    (baseSolve : Matrix (Fin n) (Fin m) ℚ → Matrix (Fin n) (Fin m) ℚ)
    (debugOn : Bool) (rhs : Matrix (Fin n) (Fin m) ℚ)
    (h : coverageOk T rhs = false) :
    cachedSolve T baseSolve debugOn rhs none =
      ⟨baseSolve rhs, false, debugOn⟩ := by
  simp [cachedSolve, h]

/-- The match count of a query column equals the cardinality of its set of
matching cached columns. -/
theorem numPrecomputed_matchSet {n k : ℕ} (T : CachedCG n k) (q : Fin n → ℚ)
    (S : Finset (Fin k))
    (hS : ∀ i, simGT (col T.eager_rhs i) q = true ↔ i ∈ S) :
    numPrecomputed T q = S.card := by
  unfold numPrecomputed simInd
  have h : ∀ i : Fin k,
      (if simGT (col T.eager_rhs i) q then (1 : ℚ) else 0) =
        (if i ∈ S then (1 : ℚ) else 0) := by
    intro i
    by_cases hb : simGT (col T.eager_rhs i) q
    · rw [if_pos hb, if_pos ((hS i).mp hb)]
    · rw [if_neg hb, if_neg fun hm => hb ((hS i).mpr hm)]
  rw [Finset.sum_congr rfl fun i _ => h i]
  rw [Finset.sum_ite_mem, Finset.univ_inter, Finset.sum_const, nsmul_eq_mul,
    mul_one]

/-- A zero query column matches no cached column at all. -/
theorem numPrecomputed_zero_col {n k : ℕ} (T : CachedCG n k) (q : Fin n → ℚ)
    (h : normSq q = 0) : numPrecomputed T q = 0 := by
  unfold numPrecomputed simInd
  refine Finset.sum_eq_zero fun i _ => ?_
  rw [simGT_zero_right _ _ h]
  simp

/-- Entry (r, j) of self.solves @ similarity_matrix for a query column
whose matching cached columns are exactly the nonempty set S: the average
of the matching cached solves. -/
theorem result_entry_matchSet {n k m : ℕ} (T : CachedCG n k)
    (rhs : Matrix (Fin n) (Fin m) ℚ) (j : Fin m) (S : Finset (Fin k))
    (hS : ∀ i, simGT (col T.eager_rhs i) (col rhs j) = true ↔ i ∈ S)
    (hne : S.Nonempty) (r : Fin n) :
    (T.solves * weightMatrix T rhs) r j = (∑ i in S, T.solves r i) / S.card := by
  have hcount : numPrecomputed T (col rhs j) = S.card :=
    numPrecomputed_matchSet T (col rhs j) S hS
  have hcard : (1 : ℚ) ≤ S.card := by
    have := Finset.card_pos.mpr hne
    exact_mod_cast this
  have hmax : max (numPrecomputed T (col rhs j)) 1 = (S.card : ℚ) := by
    rw [hcount]
    exact max_eq_left hcard
  rw [Matrix.mul_apply]
  unfold weightMatrix
  simp only [Matrix.of_apply]
  rw [Finset.sum_congr rfl fun i _ => by rw [hmax]]
  have hterm : ∀ i : Fin k,
      T.solves r i * (simInd T (col rhs j) i / S.card) =
        (if i ∈ S then T.solves r i else 0) / S.card := by
    intro i
    unfold simInd
    by_cases hb : simGT (col T.eager_rhs i) (col rhs j)
    · rw [if_pos hb, if_pos ((hS i).mp hb)]
      ring
    · rw [if_neg hb, if_neg fun hm => hb ((hS i).mpr hm)]
      ring
  rw [Finset.sum_congr rfl fun i _ => hterm i, ← Finset.sum_div,
    Finset.sum_ite_mem, Finset.univ_inter]

/-- Entry (r, j) of self.solves @ similarity_matrix for an all-zero query
column: the zero-weighted combination is zero. -/
theorem result_entry_zero_col {n k m : ℕ} (T : CachedCG n k)
    (rhs : Matrix (Fin n) (Fin m) ℚ) (j : Fin m)
    (h : normSq (col rhs j) = 0) (r : Fin n) :
    (T.solves * weightMatrix T rhs) r j = 0 := by
  rw [Matrix.mul_apply]
  refine Finset.sum_eq_zero fun i _ => ?_
  unfold weightMatrix simInd
  simp only [Matrix.of_apply]
  rw [simGT_zero_right _ _ h]
  simp

/-- The cosine similarity as the code computes it (dot product of the two
norm-divided columns), over exact reals.  With Lean's division convention
a zero norm makes the quotient 0; the code produces NaN entries there —
in both renderings the comparison against 0.9999 is false, as
simGT_iff_cosSim records. -/
noncomputable def cosSim {n : ℕ} (u v : Fin n → ℚ) : ℝ :=
  ((dotc u v : ℚ) : ℝ) / (colNormR u * colNormR v)

/-- The decidable rational test simGT is exactly the code's comparison
similarity > 0.9999 on the cosine similarity of the two columns. -/
theorem simGT_iff_cosSim {n : ℕ} (u v : Fin n → ℚ) :
    simGT u v = true ↔ (9999 / 10000 : ℝ) < cosSim u v := by
  have hcast : simGT u v = true ↔
      (0 < ((dotc u v : ℚ) : ℝ) ∧
        9999 ^ 2 * (((normSq u : ℚ) : ℝ) * ((normSq v : ℚ) : ℝ)) <
          10000 ^ 2 * ((dotc u v : ℚ) : ℝ) ^ 2) := by
    rw [simGT, decide_eq_true_iff]
    constructor
    · rintro ⟨h1, h2⟩
      exact ⟨by exact_mod_cast h1, by exact_mod_cast h2⟩
    · rintro ⟨h1, h2⟩
      exact ⟨by exact_mod_cast h1, by exact_mod_cast h2⟩
  set a : ℝ := ((dotc u v : ℚ) : ℝ) with ha
  set p : ℝ := ((normSq u : ℚ) : ℝ) with hp
  set q : ℝ := ((normSq v : ℚ) : ℝ) with hq
  have hp0 : 0 ≤ p := by
    rw [hp]
    exact_mod_cast normSq_nonneg u
  have hq0 : 0 ≤ q := by
    rw [hq]
    exact_mod_cast normSq_nonneg v
  rw [hcast]
  unfold cosSim colNormR
  rw [← ha, ← hp, ← hq]
  by_cases hpz : normSq u = 0
  · have haz : a = 0 := by
      rw [ha]
      exact_mod_cast dotc_zero_left u v ((normSq_eq_zero_iff u).mp hpz)
    have hpz' : p = 0 := by rw [hp]; exact_mod_cast hpz
    rw [haz, hpz', Real.sqrt_zero, zero_mul, zero_div]
    constructor
    · rintro ⟨h1, _⟩
      exact absurd h1 (lt_irrefl 0)
    · intro h
      norm_num at h
  · by_cases hqz : normSq v = 0
    · have haz : a = 0 := by
        rw [ha]
        exact_mod_cast dotc_zero_right u v ((normSq_eq_zero_iff v).mp hqz)
      have hqz' : q = 0 := by rw [hq]; exact_mod_cast hqz
      rw [haz, hqz', Real.sqrt_zero, mul_zero, zero_div]
      constructor
      · rintro ⟨h1, _⟩
        exact absurd h1 (lt_irrefl 0)
      · intro h
        norm_num at h
    · have hpp : 0 < p := by
        rcases lt_or_eq_of_le hp0 with h | h
        · exact h
        · exfalso
          apply hpz
          rw [hp] at h
          exact_mod_cast h.symm
      have hqp : 0 < q := by
        rcases lt_or_eq_of_le hq0 with h | h
        · exact h
        · exfalso
          apply hqz
          rw [hq] at h
          exact_mod_cast h.symm
      have hsu : 0 < Real.sqrt p := Real.sqrt_pos.mpr hpp
      have hsv : 0 < Real.sqrt q := Real.sqrt_pos.mpr hqp
      have hs : 0 < Real.sqrt p * Real.sqrt q := mul_pos hsu hsv
      have hs2 : (Real.sqrt p * Real.sqrt q) ^ 2 = p * q := by
        rw [mul_pow, Real.sq_sqrt hp0, Real.sq_sqrt hq0]
      rw [lt_div_iff₀ hs]
      constructor
      · rintro ⟨h1, h2⟩
        have hsq : (9999 / 10000 * (Real.sqrt p * Real.sqrt q)) ^ 2 < a ^ 2 := by
          rw [mul_pow, hs2]
          nlinarith
        exact lt_of_pow_lt_pow_left₀ 2 (le_of_lt h1) hsq
      · intro h
        have hlhs : 0 ≤ 9999 / 10000 * (Real.sqrt p * Real.sqrt q) := by positivity
        have h1 : 0 < a := lt_of_le_of_lt hlhs h
        have hsq := pow_lt_pow_left₀ h hlhs (by norm_num : (2 : ℕ) ≠ 0)
        rw [mul_pow, hs2] at hsq
        exact ⟨h1, by nlinarith⟩

theorem rademacher_pm_one {n k : ℕ} (draws : Matrix (Fin n) (Fin k) Bool)
    (i : Fin n) (j : Fin k) :
    rademacher draws i j = 1 ∨ rademacher draws i j = -1 := by
  unfold rademacher
  simp only [Matrix.of_apply]
  by_cases h : draws i j
  · left
    rw [if_pos h]
    norm_num
  · right
    rw [if_neg h]
    norm_num

theorem rademacher_sq {n k : ℕ} (draws : Matrix (Fin n) (Fin k) Bool)
    (i : Fin n) (j : Fin k) :
    ((rademacher draws i j : ℚ) : ℝ) ^ 2 = 1 := by
  rcases rademacher_pm_one draws i j with h | h <;> rw [h] <;> norm_num

/-- The pre-normalisation norm of every probe column is the square root of
the row count: each of the n Rademacher entries contributes 1 to the
squared norm. -/
theorem probeNormR_eq {n k : ℕ} (draws : Matrix (Fin n) (Fin k) Bool)
    (j : Fin k) : probeNormR draws j = Real.sqrt n := by
  unfold probeNormR
  congr 1
  rw [Finset.sum_congr rfl fun i _ => rademacher_sq draws i j]
  rw [Finset.sum_const, Finset.card_univ, Fintype.card_fin, nsmul_eq_mul,
    mul_one]

/-- With at least one row, each stored probe column has unit squared
L2 norm after the division by its own norm. -/
theorem probeVectorsNormed_unit {n k : ℕ}
    (draws : Matrix (Fin (n + 1)) (Fin k) Bool) (j : Fin k) :
    (∑ i, probeVectorsNormed draws i j ^ 2) = 1 := by
  unfold probeVectorsNormed
  simp only [Matrix.of_apply]
  have hn : (0 : ℝ) < (n + 1 : ℕ) := by positivity
  rw [Finset.sum_congr rfl fun i _ => by
    rw [div_pow, rademacher_sq draws i j, probeNormR_eq draws j,
      Real.sq_sqrt (le_of_lt hn)]]
  rw [Finset.sum_const, Finset.card_univ, Fintype.card_fin, nsmul_eq_mul]
  field_simp

/-!
## Claims
-/

/-- Claim C5: whenever a tridiagonalization request is present (num_tridiag
is not None), the lookup bypasses the cache entirely and performs a fresh
solve through the base operator; no error is raised (the outcome is a
plain solve, no warning), and no cache state is consulted — the outcome is
identical for any two cache states. -/
theorem tridiag_bypass {n k m : ℕ} (T U : CachedCG n k)
    (baseSolve : Matrix (Fin n) (Fin m) ℚ → Matrix (Fin n) (Fin m) ℚ)
    (debugOn : Bool) (rhs : Matrix (Fin n) (Fin m) ℚ) (t : ℕ) :
    cachedSolve T baseSolve debugOn rhs (some t) =
      ⟨baseSolve rhs, false, false⟩ ∧
    cachedSolve T baseSolve debugOn rhs (some t) =
      cachedSolve U baseSolve debugOn rhs (some t) :=
  ⟨rfl, rfl⟩

/-- Claim C10: the cached lookup path engages only when the
tridiagonalization argument is absent (None).  Explicitly passing
num_tridiag = 0 — requesting no tridiagonalization — still bypasses the
cache and performs a fresh solve, and no request with a present
tridiagonalization argument is ever served from the cache. -/
theorem tridiag_zero_still_bypasses {n k m : ℕ} (T : CachedCG n k)
    (baseSolve : Matrix (Fin n) (Fin m) ℚ → Matrix (Fin n) (Fin m) ℚ)
    (debugOn : Bool) (rhs : Matrix (Fin n) (Fin m) ℚ) :
    cachedSolve T baseSolve debugOn rhs (some 0) =
      ⟨baseSolve rhs, false, false⟩ ∧
    ∀ t : ℕ, (cachedSolve T baseSolve debugOn rhs (some t)).usedCache = false :=
  ⟨rfl, fun _ => rfl⟩

/-- Claim C9 as stated is false: construction executes
eager_rhs.requires_grad_(False) (line 70), which sets the caller-supplied
tensor's gradient-tracking flag in place.  A tensor passed in with the
flag on does not come back unchanged. -/
theorem eager_rhs_mutated_counterexample :
    initEagerRhsEffect ⟨Matrix.of fun _ _ => (1 : ℚ), true⟩ ≠
      (⟨Matrix.of fun _ _ => (1 : ℚ), true⟩ : TensorQ 1 1) := by
  intro h
  have := congrArg TensorQ.requiresGrad h
  simp [initEagerRhsEffect] at this

/-- Claim C9 amended: construction leaves the values of the caller's
eager_rhs tensor untouched, but sets its gradient-tracking flag to False
in place (so the flag is preserved only if it was already False). -/
theorem eager_rhs_values_readonly {n m : ℕ} (t : TensorQ n m) :
    (initEagerRhsEffect t).values = t.values ∧
    (initEagerRhsEffect t).requiresGrad = false :=
  ⟨rfl, rfl⟩

/-- Claim C1: querying with a cached column c (one whose direction no
other cached column shares) and no tridiagonalization request returns
exactly the stored cached solve for c, served from the cache — the
returned outcome never consults the fresh solver.  The column must be
nonzero for "directionally identical" to be meaningful: its self-similarity
is then exactly 1 > 0.9999. -/
theorem exact_reuse {n k : ℕ} (T : CachedCG n k)
    (baseSolve : Matrix (Fin n) (Fin 1) ℚ → Matrix (Fin n) (Fin 1) ℚ)
    (debugOn : Bool) (i0 : Fin k)
    (hnz : 0 < normSq (col T.eager_rhs i0))
    (hunique : ∀ j : Fin k, j ≠ i0 →
      simGT (col T.eager_rhs j) (col T.eager_rhs i0) = false) :
    cachedSolve T baseSolve debugOn (oneCol (col T.eager_rhs i0)) none =
      ⟨oneCol (col T.solves i0), true, false⟩ := by
  have hq : ∀ j : Fin 1, col (oneCol (col T.eager_rhs i0)) j = col T.eager_rhs i0 :=
    fun _ => rfl
  have hS : ∀ i : Fin k,
      simGT (col T.eager_rhs i) (col T.eager_rhs i0) = true ↔
        i ∈ ({i0} : Finset (Fin k)) := by
    intro i
    by_cases hi : i = i0
    · subst hi
      simp [simGT_self _ hnz]
    · simp [hunique i hi, hi]
  have hcount : numPrecomputed T (col T.eager_rhs i0) = 1 := by
    rw [numPrecomputed_matchSet T _ ({i0} : Finset (Fin k)) hS]
    simp
  have hcov : coverageOk T (oneCol (col T.eager_rhs i0)) = true := by
    rw [coverageOk_iff]
    intro j
    rw [hq j, hcount]
    left
    exact le_refl 1
  rw [cachedSolve_covered T baseSolve debugOn _ hcov]
  congr 1
  ext r j
  rw [result_entry_matchSet T _ j ({i0} : Finset (Fin k)) (by rw [hq j]; exact hS)
    (Finset.singleton_nonempty i0) r]
  simp [oneCol, col]

/-- A concrete cache with two orthogonal eager columns (1,0) and (0,1) and
stored solves (2,3) and (4,5). -/
def Tex1 : CachedCG 2 2 := ⟨!![1, 0; 0, 1], !![2, 4; 3, 5]⟩

/-- Witness for exact_reuse: on Tex1, querying with the first cached
column (1,0) returns its stored solve (2,3) from the cache with no
warning. -/
theorem exact_reuse_witness :
    (0 < normSq (col Tex1.eager_rhs 0)) ∧
    (∀ j : Fin 2, j ≠ 0 →
      simGT (col Tex1.eager_rhs j) (col Tex1.eager_rhs 0) = false) ∧
    cachedSolve Tex1 (fun r => r) false (oneCol (col Tex1.eager_rhs 0)) none =
      ⟨oneCol (col Tex1.solves 0), true, false⟩ := by
  have h1 : 0 < normSq (col Tex1.eager_rhs 0) := by
    simp [normSq, dotc, col, Tex1, Fin.sum_univ_two]
  have h2 : ∀ j : Fin 2, j ≠ 0 →
      simGT (col Tex1.eager_rhs j) (col Tex1.eager_rhs 0) = false := by
    intro j hj
    fin_cases j
    · exact absurd rfl hj
    · simp [simGT, dotc, normSq, col, Tex1, Fin.sum_univ_two]
  exact ⟨h1, h2, exact_reuse Tex1 (fun r => r) false 0 h1 h2⟩

/-- A concrete one-column cache: eager column (1) with stored solve (5). -/
def Tneg : CachedCG 1 1 := ⟨!![1], !![5]⟩

/-- Claim C2 as stated (every scalar α ≠ 0) is false: with cached column
c = (1) and cached solve (5), the query (-1)·c has cosine similarity -1
with c, matches nothing, and the lookup falls back to a fresh solve of the
whole batch instead of returning the cached solve.  (Here the fresh solver
is the identity, so the fallback visibly returns (-1), not (5).) -/
theorem scalar_reuse_counterexample :
    cachedSolve Tneg (fun r => r) false (oneCol fun _ : Fin 1 => -1) none =
      ⟨oneCol fun _ => -1, false, false⟩ ∧
    (⟨oneCol fun _ => -1, false, false⟩ : SolveOutcome 1 1) ≠
      ⟨oneCol (col Tneg.solves 0), true, false⟩ := by
  constructor
  · have hcov : coverageOk Tneg (oneCol fun _ : Fin 1 => -1) = false := by
      simp [coverageOk, numPrecomputed, simInd, simGT, normSq, dotc, col, oneCol,
        Tneg, Fin.sum_univ_one]
      norm_num
    exact cachedSolve_fallback Tneg (fun r => r) false _ hcov
  · intro h
    have := congrArg SolveOutcome.usedCache h
    simp at this

/-- Claim C2 amended: for a positive scalar α > 0 (not every α ≠ 0),
querying with α·c for a nonzero cached column c that no other cached
column matches returns the raw stored cached solve for c — unscaled, the
query's magnitude is ignored — served from the cache.  For negative α the
similarity is -1 and the lookup falls back instead
(scalar_reuse_counterexample). -/
theorem scalar_reuse_amended {n k : ℕ} (T : CachedCG n k)
    (baseSolve : Matrix (Fin n) (Fin 1) ℚ → Matrix (Fin n) (Fin 1) ℚ)
    (debugOn : Bool) (i0 : Fin k) (a : ℚ) (ha : 0 < a)
    (hnz : 0 < normSq (col T.eager_rhs i0))
    (hunique : ∀ j : Fin k, j ≠ i0 →
      simGT (col T.eager_rhs j) (fun i => a * col T.eager_rhs i0 i) = false) :
    cachedSolve T baseSolve debugOn (oneCol fun i => a * col T.eager_rhs i0 i)
        none =
      ⟨oneCol (col T.solves i0), true, false⟩ := by
  have hq : ∀ j : Fin 1,
      col (oneCol fun i => a * col T.eager_rhs i0 i) j =
        fun i => a * col T.eager_rhs i0 i :=
    fun _ => rfl
  have hself : simGT (col T.eager_rhs i0) (fun i => a * col T.eager_rhs i0 i) =
      true := by
    rw [simGT_smul_right _ _ a ha]
    exact simGT_self _ hnz
  have hS : ∀ i : Fin k,
      simGT (col T.eager_rhs i) (fun i => a * col T.eager_rhs i0 i) = true ↔
        i ∈ ({i0} : Finset (Fin k)) := by
    intro i
    by_cases hi : i = i0
    · subst hi
      simp [hself]
    · simp [hunique i hi, hi]
  have hcount : numPrecomputed T (fun i => a * col T.eager_rhs i0 i) = 1 := by
    rw [numPrecomputed_matchSet T _ ({i0} : Finset (Fin k)) hS]
    simp
  have hcov : coverageOk T (oneCol fun i => a * col T.eager_rhs i0 i) = true := by
    rw [coverageOk_iff]
    intro j
    rw [hq j, hcount]
    left
    exact le_refl 1
  rw [cachedSolve_covered T baseSolve debugOn _ hcov]
  congr 1
  ext r j
  rw [result_entry_matchSet T _ j ({i0} : Finset (Fin k)) (by rw [hq j]; exact hS)
    (Finset.singleton_nonempty i0) r]
  simp [oneCol, col]

/-- Witness for scalar_reuse_amended: on Tneg, the query 2·(1) = (2)
returns the raw cached solve (5) — not 2·(5) — from the cache. -/
theorem scalar_reuse_amended_witness :
    (0 < (2 : ℚ)) ∧ (0 < normSq (col Tneg.eager_rhs 0)) ∧
    cachedSolve Tneg (fun r => r) false
        (oneCol fun i => 2 * col Tneg.eager_rhs 0 i) none =
      ⟨oneCol (col Tneg.solves 0), true, false⟩ := by
  have ha : (0 : ℚ) < 2 := by norm_num
  have hnz : 0 < normSq (col Tneg.eager_rhs 0) := by
    simp [normSq, dotc, col, Tneg, Fin.sum_univ_one]
  have hu : ∀ j : Fin 1, j ≠ 0 →
      simGT (col Tneg.eager_rhs j) (fun i => 2 * col Tneg.eager_rhs 0 i) =
        false := by
    intro j hj
    fin_cases j
    exact absurd rfl hj
  exact ⟨ha, hnz, scalar_reuse_amended Tneg (fun r => r) false 0 2 ha hnz hu⟩

/-- Claim C3 as stated is false: nothing clamps the norm denominator (the
clamp of line 112 guards the match count).  For the zero column the
normalisation rhs.div(norm) divides by a denominator that is exactly zero,
and each 0/0 entry of the normalised column is NaN — not well-defined. -/
theorem zero_norm_counterexample :
    colNormR (fun _ : Fin 1 => (0 : ℚ)) = 0 ∧
    normedEntry (fun _ : Fin 1 => (0 : ℚ)) 0 = FpVal.nan := by
  have h : normSq (fun _ : Fin 1 => (0 : ℚ)) = 0 := by
    simp [normSq, dotc]
  have hn : colNormR (fun _ : Fin 1 => (0 : ℚ)) = 0 := by
    unfold colNormR
    rw [h]
    simp
  refine ⟨hn, ?_⟩
  unfold normedEntry fpDivR
  rw [hn]
  simp

/-- Claim C3 amended: a zero column (at construction or at lookup) IS
divided by its zero norm — the denominator is 0 and every entry of the
resulting normalised column is NaN; the clamped denominator in the code
protects the match-count averaging, not the norm.  The lookup nevertheless
stays safe downstream: a zero column matches no cached column, its
averaging denominator clamps to 1, and the coverage check accepts it
through the explicit zero-norm test. -/
theorem zero_norm_amended {n : ℕ} (v : Fin n → ℚ) (h : normSq v = 0) :
    colNormR v = 0 ∧ (∀ i, normedEntry v i = FpVal.nan) ∧
    ∀ (k : ℕ) (T : CachedCG n k),
      numPrecomputed T v = 0 ∧ max (numPrecomputed T v) 1 = 1 ∧
      coverageOk T (oneCol v) = true := by
  have hzero : ∀ i, v i = 0 := (normSq_eq_zero_iff v).mp h
  have hn : colNormR v = 0 := by
    unfold colNormR
    rw [h]
    simp
  refine ⟨hn, ?_, ?_⟩
  · intro i
    unfold normedEntry fpDivR
    rw [hn, hzero i]
    simp
  · intro k T
    have hc : numPrecomputed T v = 0 := numPrecomputed_zero_col T v h
    refine ⟨hc, ?_, ?_⟩
    · rw [hc]
      simp
    · rw [coverageOk_iff]
      intro j
      right
      exact h

/-- Witness for zero_norm_amended at the concrete zero column of length 1
and the concrete cache Tneg. -/
theorem zero_norm_amended_witness :
    normSq (fun _ : Fin 1 => (0 : ℚ)) = 0 ∧
    (colNormR (fun _ : Fin 1 => (0 : ℚ)) = 0 ∧
      (∀ i, normedEntry (fun _ : Fin 1 => (0 : ℚ)) i = FpVal.nan) ∧
      ∀ (k : ℕ) (T : CachedCG 1 k),
        numPrecomputed T (fun _ : Fin 1 => (0 : ℚ)) = 0 ∧
        max (numPrecomputed T (fun _ : Fin 1 => (0 : ℚ))) 1 = 1 ∧
        coverageOk T (oneCol fun _ : Fin 1 => (0 : ℚ)) = true) := by
  have h : normSq (fun _ : Fin 1 => (0 : ℚ)) = 0 := by
    simp [normSq, dotc]
  exact ⟨h, zero_norm_amended (fun _ : Fin 1 => (0 : ℚ)) h⟩

/-- Claim C4: if some query column is nonzero yet matches no cached column
above the similarity threshold, the lookup performs and returns a fresh
solve of the entire requested batch, does not serve from the cache, raises
nothing (the outcome is total), and warns exactly when the debug setting
is on. -/
theorem fallback_policy {n k m : ℕ} (T : CachedCG n k)
    (baseSolve : Matrix (Fin n) (Fin m) ℚ → Matrix (Fin n) (Fin m) ℚ)
    (debugOn : Bool) (rhs : Matrix (Fin n) (Fin m) ℚ) (j0 : Fin m)
    (hnz : normSq (col rhs j0) ≠ 0)
    (hnomatch : ∀ i : Fin k, simGT (col T.eager_rhs i) (col rhs j0) = false) :
    cachedSolve T baseSolve debugOn rhs none =
      ⟨baseSolve rhs, false, debugOn⟩ := by
  have hcount : numPrecomputed T (col rhs j0) = 0 := by
    unfold numPrecomputed simInd
    refine Finset.sum_eq_zero fun i _ => ?_
    rw [hnomatch i]
    simp
  have hcov : coverageOk T rhs = false := by
    rw [← Bool.not_eq_true, coverageOk_iff]
    push_neg
    refine ⟨j0, ?_, hnz⟩
    rw [hcount]
    norm_num
  exact cachedSolve_fallback T baseSolve debugOn rhs hcov

/-- Witness for fallback_policy: on Tneg (cached column (1)), the query
(-1) is nonzero and matches nothing; with debug on, the outcome is the
fresh solve of the whole batch with the warning emitted. -/
theorem fallback_policy_witness :
    (normSq (col (oneCol fun _ : Fin 1 => (-1 : ℚ)) 0) ≠ 0) ∧
    (∀ i : Fin 1,
      simGT (col Tneg.eager_rhs i) (col (oneCol fun _ : Fin 1 => (-1 : ℚ)) 0) =
        false) ∧
    cachedSolve Tneg (fun r => r) true (oneCol fun _ : Fin 1 => (-1 : ℚ)) none =
      ⟨oneCol fun _ => -1, false, true⟩ := by
  have hnz : normSq (col (oneCol fun _ : Fin 1 => (-1 : ℚ)) 0) ≠ 0 := by
    simp [normSq, dotc, col, oneCol, Fin.sum_univ_one]
  have hnm : ∀ i : Fin 1,
      simGT (col Tneg.eager_rhs i) (col (oneCol fun _ : Fin 1 => (-1 : ℚ)) 0) =
        false := by
    intro i
    fin_cases i
    simp [simGT, dotc, normSq, col, oneCol, Tneg, Fin.sum_univ_one]
  have := fallback_policy Tneg (fun r => r) true
    (oneCol fun _ : Fin 1 => (-1 : ℚ)) 0 hnz hnm
  exact ⟨hnz, hnm, this⟩

/-- Claim C6: on a query batch whose every column is either all-zero or
matched by some cached column, the lookup answers from the cache with no
warning, and each all-zero query column receives the all-zero solve column
(its weights are identically zero, so the weighted combination is zero). -/
theorem zero_vector_solve {n k m : ℕ} (T : CachedCG n k)
    (baseSolve : Matrix (Fin n) (Fin m) ℚ → Matrix (Fin n) (Fin m) ℚ)
    (debugOn : Bool) (rhs : Matrix (Fin n) (Fin m) ℚ)
    (hcols : ∀ j : Fin m,
      (∀ i, rhs i j = 0) ∨ 1 ≤ numPrecomputed T (col rhs j)) :
    (cachedSolve T baseSolve debugOn rhs none).usedCache = true ∧
    (cachedSolve T baseSolve debugOn rhs none).warned = false ∧
    ∀ j : Fin m, (∀ i, rhs i j = 0) →
      ∀ r, (cachedSolve T baseSolve debugOn rhs none).result r j = 0 := by
  have hcov : coverageOk T rhs = true := by
    rw [coverageOk_iff]
    intro j
    rcases hcols j with hz | hm
    · right
      exact (normSq_eq_zero_iff (col rhs j)).mpr fun i => hz i
    · left
      exact hm
  rw [cachedSolve_covered T baseSolve debugOn rhs hcov]
  refine ⟨rfl, rfl, ?_⟩
  intro j hz r
  exact result_entry_zero_col T rhs j
    ((normSq_eq_zero_iff (col rhs j)).mpr fun i => hz i) r

/-- Witness for zero_vector_solve: on Tneg, the two-column query batch
(1 | 0) is covered — column 0 matches the cached column, column 1 is zero
— and the zero column receives the zero solve from the cache path. -/
theorem zero_vector_solve_witness :
    (∀ j : Fin 2, (∀ i, (!![1, 0] : Matrix (Fin 1) (Fin 2) ℚ) i j = 0) ∨
      1 ≤ numPrecomputed Tneg (col (!![1, 0] : Matrix (Fin 1) (Fin 2) ℚ) j)) ∧
    ((cachedSolve Tneg (fun r => r) false (!![1, 0] : Matrix (Fin 1) (Fin 2) ℚ)
        none).usedCache = true ∧
      (cachedSolve Tneg (fun r => r) false (!![1, 0] : Matrix (Fin 1) (Fin 2) ℚ)
        none).warned = false ∧
      ∀ j : Fin 2, (∀ i, (!![1, 0] : Matrix (Fin 1) (Fin 2) ℚ) i j = 0) →
        ∀ r, (cachedSolve Tneg (fun r => r) false
          (!![1, 0] : Matrix (Fin 1) (Fin 2) ℚ) none).result r j = 0) := by
  have hcols : ∀ j : Fin 2,
      (∀ i, (!![1, 0] : Matrix (Fin 1) (Fin 2) ℚ) i j = 0) ∨
        1 ≤ numPrecomputed Tneg (col (!![1, 0] : Matrix (Fin 1) (Fin 2) ℚ) j) := by
    intro j
    fin_cases j
    · right
      simp [numPrecomputed, simInd, simGT, dotc, normSq, col, Tneg,
        Fin.sum_univ_one]
      norm_num
    · left
      intro i
      fin_cases i
      simp
  exact ⟨hcols, zero_vector_solve Tneg (fun r => r) false _ hcols⟩

/-- A concrete cache with two directionally identical eager columns (1)
and (1), whose stored solves (3) and (7) differ. -/
def Tdup : CachedCG 1 2 := ⟨!![1, 1], !![3, 7]⟩

/-- Claim C7: when the cached columns matching a query column are exactly
the nonempty set S (cosine similarity strictly above 0.9999), the cache
path is taken and the returned solve column is the arithmetic mean of the
|S| matching cached solve columns. -/
theorem duplicate_cache_averaging {n k : ℕ} (T : CachedCG n k)
    (baseSolve : Matrix (Fin n) (Fin 1) ℚ → Matrix (Fin n) (Fin 1) ℚ)
    (debugOn : Bool) (q : Fin n → ℚ) (S : Finset (Fin k))
    (hS : ∀ i, simGT (col T.eager_rhs i) q = true ↔ i ∈ S)
    (hne : S.Nonempty) :
    (cachedSolve T baseSolve debugOn (oneCol q) none).usedCache = true ∧
    (cachedSolve T baseSolve debugOn (oneCol q) none).warned = false ∧
    ∀ r, (cachedSolve T baseSolve debugOn (oneCol q) none).result r 0 =
      (∑ i in S, T.solves r i) / S.card := by
  have hcount : numPrecomputed T q = S.card := numPrecomputed_matchSet T q S hS
  have hcov : coverageOk T (oneCol q) = true := by
    rw [coverageOk_iff]
    intro j
    left
    show 1 ≤ numPrecomputed T q
    rw [hcount]
    exact_mod_cast Finset.card_pos.mpr hne
  rw [cachedSolve_covered T baseSolve debugOn _ hcov]
  exact ⟨rfl, rfl, fun r => result_entry_matchSet T (oneCol q) 0 S hS hne r⟩

/-- Witness for duplicate_cache_averaging: on Tdup, both cached columns
match the query (1), and the returned solve is (3 + 7) / 2 = 5, the
average of the two cached solves. -/
theorem duplicate_cache_averaging_witness :
    (∀ i : Fin 2, simGT (col Tdup.eager_rhs i) (fun _ : Fin 1 => 1) = true ↔
      i ∈ (Finset.univ : Finset (Fin 2))) ∧
    (Finset.univ : Finset (Fin 2)).Nonempty ∧
    (∀ r, (cachedSolve Tdup (fun r => r) false (oneCol fun _ : Fin 1 => 1)
        none).result r 0 =
      (∑ i in (Finset.univ : Finset (Fin 2)), Tdup.solves r i) /
        (Finset.univ : Finset (Fin 2)).card) ∧
    (∑ i in (Finset.univ : Finset (Fin 2)), Tdup.solves 0 i) /
        ((Finset.univ : Finset (Fin 2)).card : ℚ) = 5 := by
  have hS : ∀ i : Fin 2, simGT (col Tdup.eager_rhs i) (fun _ : Fin 1 => 1) =
      true ↔ i ∈ (Finset.univ : Finset (Fin 2)) := by
    intro i
    fin_cases i <;>
      simp [simGT, dotc, normSq, col, Tdup, Fin.sum_univ_one] <;> norm_num
  have hne : (Finset.univ : Finset (Fin 2)).Nonempty := Finset.univ_nonempty
  refine ⟨hS, hne,
    (duplicate_cache_averaging Tdup (fun r => r) false _ _ hS hne).2.2, ?_⟩
  simp [Tdup, Fin.sum_univ_two]
  norm_num

/-- Claim C8: with log-determinant estimation disabled the stored probe
structures are empty; with it enabled (and no probes supplied) the stored
probe vectors are Rademacher columns — every pre-normalisation entry is
+1 or -1 — each divided by its own L2 norm so that every stored column has
unit (squared) L2 norm, and the stored probe_vector_norms are exactly
those pre-normalisation norms, here the square root of the row count. -/
theorem probe_vector_generation {n k : ℕ}
    (draws : Matrix (Fin (n + 1)) (Fin k) Bool) (j : Fin k) :
    generateProbes false (n + 1) k draws = ProbeData.empty ∧
    generateProbes true (n + 1) k draws =
      ProbeData.mk (n + 1) k (probeVectorsNormed draws) (probeNormR draws) ∧
    (∀ i, rademacher draws i j = 1 ∨ rademacher draws i j = -1) ∧
    (∑ i, probeVectorsNormed draws i j ^ 2) = 1 ∧
    probeNormR draws j = Real.sqrt ((n : ℝ) + 1) := by
  refine ⟨rfl, rfl, fun i => rademacher_pm_one draws i j,
    probeVectorsNormed_unit draws j, ?_⟩
  rw [probeNormR_eq draws j]
  norm_num
